import Mathlib

/-!
CPP Utility Library: `cppu/algorithm.hpp` and `cppu/meta.hpp`

A shallow embedding of the introspective swap `cppu::iswap` and of the
nested-container utilities `multi_t` / `make_multi`, with the properties
stated about them.

How `iswap` is embedded

`iswap` is a set of three function templates; which one runs is decided by
the operand type `T`.  The embedding therefore describes an operand type by

* a `Shape`: a non-aggregate type, a raw array `T[n]`, or a `std::array<T, n>`;
* an `Ops` record for the non-aggregate type at the leaves: the member
  `x.swap(y)` when that expression is well-formed, and the namespace-scope
  `swap(x, y)` found by argument-dependent lookup when there is one.

Both operands of a call have the same C++ type, so both are values of
`Val α s` for one shape `s`.  An exchange returns the new values of `x` and
`y` together with the list of `detail::iswap` overloads that ran, in order.
-/

namespace cppu

/-- Which overload of `detail::iswap` ran: the one tagged `char`, which
performs `x.swap(y)`, or the one tagged `int`, which performs `swap(x, y)`. -/
inductive Path where
  | member
  | generic
  deriving DecidableEq, Repr

/-- The `detail::iswap` overloads a call went through, in order. -/
abbrev Trace := List Path

/-- The exchange operations of a non-aggregate operand type `T`, as far as
`algorithm.hpp` can see them. `member` is `x.swap(y)` when that expression is
well-formed; `adl` is the `swap(x, y)` that argument-dependent lookup finds in
the namespace of `T`, when there is one. A scalar such as `int` has neither. -/
structure Ops (α : Type) where
  member : Option (α → α → α × α)
  adl : Option (α → α → α × α)

/-- The operations of a scalar type: no member `swap`, nothing found by ADL. -/
def scalar (α : Type) : Ops α := ⟨none, none⟩

/-- The shape of an operand type: a non-aggregate `T`, a raw array `E[n]`,
or a `std::array<E, n>`. -/
inductive Shape where
  | leaf : Shape
  | raw : Nat → Shape → Shape
  | arr : Nat → Shape → Shape
  deriving DecidableEq, Repr

/-- The values of an operand type of shape `s` over the leaf type `α`; an
array of length `n` is indexed by `Fin n`. -/
@[reducible]
def Val (α : Type) : Shape → Type
  | .leaf => α
  | .raw n e => Fin n → Val α e
  | .arr n e => Fin n → Val α e

/-- An exchange of two objects of type `β` that does not report which
`detail::iswap` overloads ran (library code). -/
abbrev Swap (β : Type) := β → β → β × β

/-- An exchange as `iswap` performs it: the new `(x, y)` and the overloads of
`detail::iswap` that ran. -/
abbrev Exch (β : Type) := β → β → (β × β) × Trace

/-- The naive three-move exchange `temp = x; x = y; y = temp`. -/
def three_move {β : Type} : Swap β := fun x y =>
  let temp := x
  let x := y
  let y := temp
  (x, y)

/-- The primary template `std::swap(T&, T&)`:
`T tmp(std::move(a)); a = std::move(b); b = std::move(tmp);`. -/
def std.swap {β : Type} : Swap β := fun a b =>
  let tmp := a
  let a := b
  let b := tmp
  (a, b)

/-- The library algorithm `std::swap_ranges` on two arrays of length `n`: for
every index in order, `swp` is applied to the two elements at that index. -/
def std.swap_ranges {β : Type} (swp : Swap β) (n : Nat) : Swap (Fin n → β) :=
  fun x y =>
    (List.finRange n).foldl
      (fun st i =>
        let r := swp (st.1 i) (st.2 i)
        (Function.update st.1 i r.1, Function.update st.2 i r.2))
      (x, y)

/-- The unqualified call `swap(x, y)` after `using std::swap;`. For a
non-aggregate type the function found by ADL wins when there is one, else the
primary `std::swap`; a raw array goes to `std::swap(T (&)[n], T (&)[n])` and a
`std::array` to `std::swap(array&, array&)`, which is `x.swap(y)`; both are
`swap_ranges` with the same unqualified `swap` on the elements. -/
def unqualified_swap {α : Type} (ops : Ops α) : (s : Shape) → Swap (Val α s)
  | .leaf => fun x y =>
    match ops.adl with
    | some f => f x y
    | none => std.swap x y
  | .raw n e => std.swap_ranges (unqualified_swap ops e) n
  | .arr n e => std.swap_ranges (unqualified_swap ops e) n

/-- The member function `x.swap(y)` of an operand type, when the expression
is well-formed: the one of `Ops` for a non-aggregate type, none for a raw
array, `std::array::swap` (a `swap_ranges`) for a `std::array`. -/
def member_swap {α : Type} (ops : Ops α) : (s : Shape) → Option (Swap (Val α s))
  | .leaf => ops.member
  | .raw _ _ => none
  | .arr n e => some (std.swap_ranges (unqualified_swap ops e) n)

/-- Overload `detail::iswap(T& x, T& y, int)`: performs `swap(x, y)`. -/
def detail.iswap_int {α : Type} (ops : Ops α) (s : Shape) : Exch (Val α s) :=
  fun x y => (unqualified_swap ops s x y, [Path.generic])

/-- Overload `detail::iswap(T& x, T& y, char)`: performs `x.swap(y)`; it
exists only when `x.swap(y)` is well-formed. -/
def detail.iswap_char {α : Type} (ops : Ops α) (s : Shape) : Option (Exch (Val α s)) :=
  match member_swap ops s with
  | some f => some (fun x y => (f x y, [Path.member]))
  | none => none

/-- The template `iswap(T& x, T& y)`: calls `detail::iswap(x, y, ' ')`. The
`char` overload is the better match when it is enabled, else the `int`
overload is called. -/
def iswap_T {α : Type} (ops : Ops α) (s : Shape) : Exch (Val α s) :=
  match detail.iswap_char ops s with
  | some f => f
  | none => detail.iswap_int ops s

/-- The loop `for (std::size_t i = 0; i < n; ++i) { iswap(x[i], y[i]); }`
shared by both array overloads; `call` is what `iswap(x[i], y[i])` resolves
to. -/
def for_each_index {β : Type} (n : Nat) (call : Exch β) : Exch (Fin n → β) :=
  fun x y =>
    (List.finRange n).foldl
      (fun st i =>
        let r := call (st.1.1 i) (st.1.2 i)
        ((Function.update st.1.1 i r.1.1, Function.update st.1.2 i r.1.2), st.2 ++ r.2))
      ((x, y), [])

/-- What the call `iswap(x[i], y[i])` inside the raw-array overload resolves
to, for elements of shape `e`. The `std::array` overload is declared after
the raw-array overload and `cppu` is not an associated namespace of
`std::array`, so for `std::array` elements only the template `iswap(T&, T&)`
is a candidate; for every other element type the call resolves as at any
other call site (`self`). -/
def raw_element_call {α : Type} (ops : Ops α) (e : Shape) (self : Exch (Val α e)) :
    Exch (Val α e) :=
  match e with
  | .arr n e' => iswap_T ops (.arr n e')
  | _ => self

/-- The call `iswap(x, y)` on operands of shape `s`, after overload
resolution: the template `iswap(T&, T&)` for a non-aggregate, the overload
`iswap(T (&x)[n], T (&y)[n])` for a raw array and the overload
`iswap(std::array<T, n>&, std::array<T, n>&)` for a `std::array`, each array
overload being more specialised than the template. -/
def iswap {α : Type} (ops : Ops α) : (s : Shape) → Exch (Val α s)
  | .leaf => iswap_T ops .leaf
  | .raw n e => for_each_index n (raw_element_call ops e (iswap ops e))
  | .arr n e => for_each_index n (iswap ops e)

/-- The nesting depth of an operand type: 0 for a non-aggregate, one more
than the depth of the element type for an array. -/
def depth : Shape → Nat
  | .leaf => 0
  | .raw _ e => depth e + 1
  | .arr _ e => depth e + 1

/-- The result of a call that may fail to complete: `none` when it does not. -/
abbrev Attempt (β : Type) := β → β → Option ((β × β) × Trace)

/-- The loop of the array overloads when the call `iswap(x[i], y[i])` may
fail to complete: the loop completes when every call of it does. -/
def for_each_index_bounded {β : Type} (n : Nat) (call : Attempt β) : Attempt (Fin n → β) :=
  fun x y =>
    (List.finRange n).foldl
      (fun st i =>
        match st with
        | none => none
        | some st =>
          match call (st.1.1 i) (st.1.2 i) with
          | none => none
          | some r =>
            some ((Function.update st.1.1 i r.1.1, Function.update st.1.2 i r.1.2),
              st.2 ++ r.2))
      (some ((x, y), []))

/-- The call `iswap(x[i], y[i])` inside the raw-array overload, as
`raw_element_call`, when the recursive call `self` may fail to complete. A
`std::array` element goes to the template `iswap(T&, T&)`, which calls no
`iswap` overload again. -/
def raw_element_call_bounded {α : Type} (ops : Ops α) (e : Shape) (self : Attempt (Val α e)) :
    Attempt (Val α e) :=
  match e with
  | .arr n e' => fun x y => some (iswap_T ops (.arr n e') x y)
  | _ => self

/-- The call `iswap(x, y)` run with a bound on how deep calls of `iswap` may
nest: a call needs one unit, and the calls `iswap(x[i], y[i])` it makes run
with what is left. `none` when the bound does not suffice. The code itself has
no such bound; this is the instrument for stating that it completes. -/
def iswap_bounded {α : Type} (ops : Ops α) : Nat → (s : Shape) → Attempt (Val α s)
  | 0, _ => fun _ _ => none
  | _ + 1, .leaf => fun x y => some (iswap_T ops .leaf x y)
  | k + 1, .raw n e =>
    for_each_index_bounded n (raw_element_call_bounded ops e (iswap_bounded ops k e))
  | k + 1, .arr n e => for_each_index_bounded n (iswap_bounded ops k e)

/-!
The nested-container utilities of `cppu/meta.hpp`

The header itself is not among the sources at hand; its test
`test/meta.cpp` is. The definitions below follow the specification of the
operations and the way the test calls them.
-/

/-- The contract a dynamically-sized container family has to meet for the
builder: construction from `(size, fill value)` gives exactly `size` elements,
each equal to the fill value; `size()`; indexed element access (`none` for an
index that is not below the size). `std::vector` is such a family. -/
class Container (C : Type → Type) where
  construct : {T : Type} → Nat → T → C T
  size : {T : Type} → C T → Nat
  index : {T : Type} → C T → Nat → Option T
  size_construct : ∀ {T : Type} (n : Nat) (v : T), size (construct n v) = n
  index_construct : ∀ {T : Type} (n : Nat) (v : T) (i : Nat), i < n →
    index (construct n v) i = some v

/-- The family `std::vector`: `std::vector<T>(n, v)` holds `n` copies of `v`. -/
instance std.vector : Container List where
  construct := fun n v => List.replicate n v
  size := fun l => l.length
  index := fun l i => l.get? i
  size_construct := by intro T n v; simp
  index_construct := by
    intro T n v i h
    simp [List.getElem?_replicate, h]

/-- Modelled from the spec: `multi_t<Container, T, depth>` of `cppu/meta.hpp`
(section 4.4, the Nested-Container-Type Constructor), which is not among the
sources. For `depth = 1` the result is `Container<T>`, for `depth > 1` it is
`Container<multi_t<Container, T, depth - 1>>`. The operation is defined for
`depth ≥ 1` only; at `depth = 0` the model gives the empty type, which no
value has. -/
def multi_t (C : Type → Type) (T : Type) : Nat → Type
  | 0 => Empty
  | 1 => C T
  | d + 2 => C (multi_t C T (d + 1))

/-- Modelled from the spec: the type of the result of
`make_multi<Container>(value, d1, ds...)` of `cppu/meta.hpp` (section 4.5),
which is not among the sources, as the compiler deduces it from the returned
value (the test binds the result with `auto`): a `Container<T>` when `ds` is
empty, else a `Container` of the type of `make_multi<Container>(value, ds...)`.
The argument is the list of the sizes after the first. -/
def make_multi_t (C : Type → Type) (T : Type) : List Nat → Type
  | [] => C T
  | _ :: ds => C (make_multi_t C T ds)

/-- Modelled from the spec: the builder `make_multi<Container>(value, d1,
ds...)` of `cppu/meta.hpp` (section 4.5), which is not among the sources. With
one size it returns a container of `d1` elements, each equal to `value`; with
more it returns a container of `d1` elements, each equal to
`make_multi<Container>(value, ds...)`. There is no call without a size. -/
def make_multi (C : Type → Type) [Container C] {T : Type} (value : T) :
    (d1 : Nat) → (ds : List Nat) → make_multi_t C T ds
  | d1, [] => Container.construct d1 value
  | d1, d2 :: ds => Container.construct d1 (make_multi C value d2 ds)

/-- What an index path reaches inside a nested container: a container, of
which the size is kept, or a leaf element. -/
inductive Reached (T : Type) where
  | container : Nat → Reached T
  | leaf : T → Reached T
  deriving DecidableEq, Repr

/-- The object `v[i1][i2]...` an index path reaches in a value of the
builder's result type, `none` when an index is out of range or the path is
longer than the nesting is deep. The empty path reaches `v` itself. -/
def reach (C : Type → Type) [Container C] {T : Type} :
    (ds : List Nat) → make_multi_t C T ds → List Nat → Option (Reached T)
  | [], v, [] => some (Reached.container (Container.size v))
  | [], v, [i] => (Container.index v i).map Reached.leaf
  | [], _, _ :: _ :: _ => none
  | _ :: _, v, [] => some (Reached.container (Container.size v))
  | _ :: ds, v, i :: p => (Container.index v i).bind (fun e => reach C ds e p)

/-- An index path is valid for a dimension list when it is no longer than
the list and every index is below the size at its level. -/
def valid_path : List Nat → List Nat → Bool
  | [], _ => true
  | _ :: _, [] => false
  | i :: p, d :: ds => decide (i < d) && valid_path p ds

/-- The fixed-size array type `std::array<T, n>`: `n` elements of `T`,
indexed below `n`, as in `Val`. -/
def std.array (T : Type) (n : Nat) : Type := Fin n → T

/-- Modelled from the spec: `multi_array_t<T, d1, ds...>` of `cppu/meta.hpp`
(section 4.3, the Array-Type Constructor), which is not among the sources.
With one size the result is `std::array<T, d1>`; with more it is the
`std::array` of `d1` elements of `multi_array_t<T, ds...>`, first size
outermost. -/
def multi_array_t (T : Type) : Nat → List Nat → Type
  | d1, [] => std.array T d1
  | d1, d2 :: ds => std.array (multi_array_t T d2 ds) d1

/-- The unit type `void`, the default result of the capability probe. -/
abbrev void : Type := Unit

/-- Modelled from the spec: `enable_if_well_formed_t<Expr, Result>` of
`cppu/meta.hpp` (section 4.1, the Capability Probe), which is not among the
sources. A type expression is `some` type when it is well-formed and `none`
when it is not; `Result` is `none` when the template argument is left out, and
the default is then `void`. The probe of a well-formed expression resolves to
the result type; the probe of an ill-formed one resolves to nothing, which
removes the candidate it conditions. -/
def enable_if_well_formed_t (Expr : Option Type) (Result : Option Type) : Option Type :=
  match Expr with
  | some _ => some (Result.getD void)
  | none => none

/-- The number of leaf elements of a value of the builder's result type: the
size of an innermost container, and for an outer container the sum of the
numbers of leaves of its elements. -/
def leaf_count (C : Type → Type) [Container C] {T : Type} :
    (ds : List Nat) → make_multi_t C T ds → Nat
  | [], v => Container.size v
  | _ :: ds, v =>
    ((List.range (Container.size v)).map
      (fun i =>
        match Container.index v i with
        | some e => leaf_count C ds e
        | none => 0)).sum

/-!
Properties of `iswap`
-/

/-- Folding the body of `swap_ranges` over distinct indices `l` changes
exactly the elements at the indices of `l`. -/
theorem swap_ranges_fold {β : Type} {n : Nat} (swp : Swap β) (l : List (Fin n))
    (hl : l.Nodup) (x y : Fin n → β) :
    l.foldl
      (fun st i =>
        let r := swp (st.1 i) (st.2 i)
        (Function.update st.1 i r.1, Function.update st.2 i r.2))
      (x, y)
    = (fun i => if i ∈ l then (swp (x i) (y i)).1 else x i,
       fun i => if i ∈ l then (swp (x i) (y i)).2 else y i) := by
  induction l generalizing x y with
  | nil => simp
  | cons a l ih =>
    have ha : a ∉ l := (List.nodup_cons.mp hl).1
    rw [List.foldl_cons, ih (List.nodup_cons.mp hl).2]
    refine Prod.ext ?_ ?_ <;> funext i <;> by_cases hia : i = a
    · subst hia; simp [ha]
    · simp [hia, Function.update_noteq hia]
    · subst hia; simp [ha]
    · simp [hia, Function.update_noteq hia]

/-- The result of `std::swap_ranges`, element by element. -/
theorem swap_ranges_eq {β : Type} (swp : Swap β) (n : Nat) (x y : Fin n → β) :
    std.swap_ranges swp n x y
      = (fun i => (swp (x i) (y i)).1, fun i => (swp (x i) (y i)).2) := by
  unfold std.swap_ranges
  rw [swap_ranges_fold swp _ (List.nodup_finRange n)]
  simp [List.mem_finRange]

/-- Folding the loop body of the array overloads over distinct indices `l`. -/
theorem for_each_index_fold {β : Type} {n : Nat} (call : Exch β) (l : List (Fin n))
    (hl : l.Nodup) (x y : Fin n → β) (t : Trace) :
    l.foldl
      (fun st i =>
        let r := call (st.1.1 i) (st.1.2 i)
        ((Function.update st.1.1 i r.1.1, Function.update st.1.2 i r.1.2), st.2 ++ r.2))
      ((x, y), t)
    = ((fun i => if i ∈ l then (call (x i) (y i)).1.1 else x i,
        fun i => if i ∈ l then (call (x i) (y i)).1.2 else y i),
       t ++ l.flatMap (fun i => (call (x i) (y i)).2)) := by
  induction l generalizing x y t with
  | nil => simp
  | cons a l ih =>
    have ha : a ∉ l := (List.nodup_cons.mp hl).1
    rw [List.foldl_cons, ih (List.nodup_cons.mp hl).2]
    have hne : ∀ i ∈ l, i ≠ a := fun i hi h => ha (h ▸ hi)
    refine Prod.ext (Prod.ext ?_ ?_) ?_
    · funext i; by_cases hia : i = a
      · subst hia; simp [ha]
      · simp [hia, Function.update_noteq hia]
    · funext i; by_cases hia : i = a
      · subst hia; simp [ha]
      · simp [hia, Function.update_noteq hia]
    · simp only [List.flatMap_cons, List.append_assoc]
      congr 2
      apply List.flatMap_congr
      intro i hi
      simp [Function.update_noteq (hne i hi)]

/-- The result of the loop of the array overloads: every element pair is
replaced by what `call` makes of it, and the traces of the calls are
concatenated in index order. -/
theorem for_each_index_eq {β : Type} (n : Nat) (call : Exch β) (x y : Fin n → β) :
    for_each_index n call x y
      = ((fun i => (call (x i) (y i)).1.1, fun i => (call (x i) (y i)).1.2),
         (List.finRange n).flatMap (fun i => (call (x i) (y i)).2)) := by
  unfold for_each_index
  rw [for_each_index_fold call _ (List.nodup_finRange n)]
  simp [List.mem_finRange]

/-- One event per index: the concatenated trace of a loop whose every call
leaves the single event `c`. -/
theorem flatMap_const_singleton {ι β : Type} (l : List ι) (c : β) :
    l.flatMap (fun _ => [c]) = List.replicate l.length c := by
  induction l with
  | nil => rfl
  | cons a l ih => simp [List.flatMap_cons, ih, List.replicate_succ]

/-- On scalars and on arrays of scalars nested to any depth, the unqualified
`swap(x, y)` exchanges the two values. -/
theorem unqualified_swap_scalar {α : Type} (s : Shape) (x y : Val α s) :
    unqualified_swap (scalar α) s x y = (y, x) := by
  induction s with
  | leaf => rfl
  | raw n e ih => simp only [unqualified_swap, swap_ranges_eq, ih]
  | arr n e ih => simp only [unqualified_swap, swap_ranges_eq, ih]

/-- The template `iswap(T&, T&)` on a non-aggregate: the member `swap` when
there is one, else the unqualified `swap`. -/
theorem iswap_T_leaf {α : Type} (ops : Ops α) (x y : α) :
    iswap_T ops Shape.leaf x y
      = match ops.member with
        | some f => (f x y, [Path.member])
        | none => (unqualified_swap ops Shape.leaf x y, [Path.generic]) := by
  unfold iswap_T detail.iswap_char member_swap
  cases ops.member <;> rfl

/-- On a scalar, `iswap` goes through the `int` overload and exchanges. -/
theorem iswap_T_scalar_leaf {α : Type} (x y : α) :
    iswap_T (scalar α) Shape.leaf x y = ((y, x), [Path.generic]) := rfl

/-- On a `std::array` of scalars the template `iswap(T&, T&)` exchanges the
two arrays through the member `swap`. -/
theorem iswap_T_scalar_arr {α : Type} (n : Nat) (e : Shape) (x y : Val α (Shape.arr n e)) :
    (iswap_T (scalar α) (Shape.arr n e) x y).1 = (y, x) := by
  simp only [iswap_T, detail.iswap_char, member_swap, swap_ranges_eq, unqualified_swap_scalar]

/-- The end state of `iswap` on scalars and on aggregates of scalars of any
shape: the two values are exchanged. -/
theorem iswap_scalar_values {α : Type} (s : Shape) (x y : Val α s) :
    (iswap (scalar α) s x y).1 = (y, x) := by
  induction s with
  | leaf => rfl
  | raw n e ih =>
    have h : ∀ a b : Val α e,
        (raw_element_call (scalar α) e (iswap (scalar α) e) a b).1 = (b, a) := by
      intro a b
      cases e with
      | leaf => exact ih a b
      | raw m e' => exact ih a b
      | arr m e' => exact iswap_T_scalar_arr m e' a b
    simp only [iswap, for_each_index_eq, h]
  | arr n e ih => simp only [iswap, for_each_index_eq, ih]

/-- C1: for every length `n` and every two arrays `x`, `y` of `n` scalars,
raw arrays and `std::array`s alike, after `iswap(x, y)` every element `x[i]`
holds the prior `y[i]` and every `y[i]` the prior `x[i]`. -/
theorem iswap_array_elements {α : Type} (n : Nat) (x y : Fin n → α) (i : Fin n) :
    ((iswap (scalar α) (Shape.raw n Shape.leaf) x y).1.1 i = y i
      ∧ (iswap (scalar α) (Shape.raw n Shape.leaf) x y).1.2 i = x i)
    ∧ ((iswap (scalar α) (Shape.arr n Shape.leaf) x y).1.1 i = y i
      ∧ (iswap (scalar α) (Shape.arr n Shape.leaf) x y).1.2 i = x i) := by
  simp only [iswap, raw_element_call, for_each_index_eq, iswap_T_scalar_leaf, and_self]

/-- C2 (counterexample): `std::array<int, 1>` provides a member `swap`, and
`iswap` on the arrays `{1}` and `{2}` runs the generic fallback
`detail::iswap(x, y, int)`, for the one element pair. -/
theorem iswap_std_array_runs_fallback :
    (member_swap (scalar Int) (Shape.arr 1 Shape.leaf)).isSome = true
      ∧ Path.generic ∈ (iswap (scalar Int) (Shape.arr 1 Shape.leaf) ![1] ![2]).2 := by
  decide

/-- C2 (amended): for a non-aggregate type with a member `swap`, `iswap(x, y)`
ends in the state of `x.swap(y)` and runs only the `char` overload, never the
fallback. A `std::array<E, n>` goes to the elementwise overload: its end state
is that of `x.swap(y)` whenever `iswap` and `swap` agree on the elements, and
for a non-aggregate `E` it runs, once per element, the member `swap` of `E`
when `E` has one and the fallback when it has none. -/
theorem iswap_member_swap {α : Type} (ops : Ops α) :
    (∀ f : Swap α, ops.member = some f →
        ∀ x y : α, iswap ops Shape.leaf x y = (f x y, [Path.member]))
    ∧ (∀ (n : Nat) (e : Shape) (x y : Val α (Shape.arr n e)),
        (∀ a b : Val α e, (iswap ops e a b).1 = unqualified_swap ops e a b) →
        ∃ g, member_swap ops (Shape.arr n e) = some g
          ∧ (iswap ops (Shape.arr n e) x y).1 = g x y)
    ∧ (∀ (n : Nat) (x y : Val α (Shape.arr n Shape.leaf)),
        (iswap ops (Shape.arr n Shape.leaf) x y).2
          = List.replicate n (if ops.member.isSome then Path.member else Path.generic)) := by
  refine ⟨?_, ?_, ?_⟩
  · intro f hf x y
    simp only [iswap, iswap_T_leaf, hf]
  · intro n e x y hag
    refine ⟨_, rfl, ?_⟩
    simp only [iswap, for_each_index_eq, swap_ranges_eq, hag]
  · intro n x y
    have h : ∀ a b : α, (iswap ops Shape.leaf a b).2
        = [if ops.member.isSome then Path.member else Path.generic] := by
      intro a b
      simp only [iswap, iswap_T_leaf]
      cases ops.member <;> rfl
    have := flatMap_const_singleton (List.finRange n)
      (if ops.member.isSome then Path.member else Path.generic)
    simp only [List.length_finRange] at this
    rw [← this]
    simp only [iswap, for_each_index_eq]
    exact List.flatMap_congr (fun i _ => h (x i) (y i))

/-- C2 (witness): two `int`-like objects of a type whose member `swap`
exchanges them, and the two arrays `{1, 2}` and `{3, 4}` of type
`std::array<int, 2>`. -/
theorem iswap_member_swap_witness :
    iswap (Ops.mk (some fun a b => (b, a)) none) Shape.leaf (1 : Int) 2
        = (((2 : Int), (1 : Int)), [Path.member])
    ∧ (∃ g, member_swap (scalar Int) (Shape.arr 2 Shape.leaf) = some g
        ∧ (iswap (scalar Int) (Shape.arr 2 Shape.leaf) ![1, 2] ![3, 4]).1 = g ![1, 2] ![3, 4])
    ∧ (iswap (scalar Int) (Shape.arr 2 Shape.leaf) ![1, 2] ![3, 4]).2
        = [Path.generic, Path.generic] :=
  ⟨(iswap_member_swap (Ops.mk (some fun a b => (b, a)) none)).1 _ rfl 1 2,
   (iswap_member_swap (scalar Int)).2.1 2 Shape.leaf ![1, 2] ![3, 4] (fun _ _ => rfl),
   (iswap_member_swap (scalar Int)).2.2 2 ![1, 2] ![3, 4]⟩

/-- C3 (counterexample): a type of two `int` fields with no member `swap`,
in whose namespace a `swap` exchanges the second field only. On `(1, 10)` and
`(2, 20)`, `iswap` calls that function and leaves `(1, 20)` and `(2, 10)`; the
three-move exchange leaves `(2, 20)` and `(1, 10)`. -/
theorem iswap_adl_swap_not_three_move :
    (Ops.mk none (some fun a b => ((a.1, b.2), (b.1, a.2))) : Ops (Int × Int)).member = none
      ∧ (iswap (Ops.mk none (some fun a b => ((a.1, b.2), (b.1, a.2))))
            Shape.leaf ((1 : Int), (10 : Int)) (2, 20)).1
          = ((1, 20), (2, 10))
      ∧ three_move ((1 : Int), (10 : Int)) (2, 20) = ((2, 20), (1, 10))
      ∧ (iswap (Ops.mk none (some fun a b => ((a.1, b.2), (b.1, a.2))))
            Shape.leaf ((1 : Int), (10 : Int)) (2, 20)).1
          ≠ three_move ((1 : Int), (10 : Int)) (2, 20) :=
  ⟨rfl, by decide, by decide, by decide⟩

/-- C3 (amended): for a non-aggregate type with no member `swap`, `iswap(x, y)`
runs the `int` overload, which calls the unqualified `swap(x, y)`: when lookup
finds no `swap` in the namespace of the type the call is `std::swap` and the
end state is that of the three-move exchange `temp = x; x = y; y = temp`; when
it finds one, the end state is the one that function leaves. -/
theorem iswap_generic_path {α : Type} (ops : Ops α) (h : ops.member = none) (x y : α) :
    (iswap ops Shape.leaf x y).2 = [Path.generic]
    ∧ (ops.adl = none → (iswap ops Shape.leaf x y).1 = three_move x y)
    ∧ (∀ g, ops.adl = some g → (iswap ops Shape.leaf x y).1 = g x y) := by
  simp only [iswap, iswap_T_leaf, h, unqualified_swap]
  refine ⟨trivial, ?_, ?_⟩
  · intro ha; rw [ha]; rfl
  · intro g hg; rw [hg]

/-- C3 (witness): the two `int`s `1` and `2`. -/
theorem iswap_generic_path_witness :
    (iswap (scalar Int) Shape.leaf 1 2).2 = [Path.generic]
    ∧ ((scalar Int).adl = none → (iswap (scalar Int) Shape.leaf 1 2).1 = three_move 1 2)
    ∧ (∀ g, (scalar Int).adl = some g → (iswap (scalar Int) Shape.leaf 1 2).1 = g 1 2) :=
  iswap_generic_path (scalar Int) rfl 1 2

/-- C4: for every shape of nested fixed-size aggregates of scalars, of any
finite depth, raw arrays and `std::array`s in any mix, and every two values
`x`, `y` of that shape, after `iswap(x, y)` the whole of `x` is the prior `y`
and the whole of `y` is the prior `x`. -/
theorem iswap_exchanges_whole_value {α : Type} (s : Shape) (x y : Val α s) :
    (iswap (scalar α) s x y).1.1 = y ∧ (iswap (scalar α) s x y).1.2 = x := by
  rw [iswap_scalar_values]; exact ⟨rfl, rfl⟩

/-- C5: for every two-level aggregate of shape `n` by `m` with scalar leaves
(raw arrays of raw arrays, `std::array`s of `std::array`s, and the two mixed
nestings), after `iswap(x, y)` every leaf `x[i][j]` holds the prior `y[i][j]`
and every `y[i][j]` the prior `x[i][j]`, for all `i < n` and `j < m`. -/
theorem iswap_two_level_leaves {α : Type} (n m : Nat) (x y : Fin n → Fin m → α)
    (i : Fin n) (j : Fin m) :
    ((iswap (scalar α) (Shape.raw n (Shape.raw m Shape.leaf)) x y).1.1 i j = y i j
      ∧ (iswap (scalar α) (Shape.raw n (Shape.raw m Shape.leaf)) x y).1.2 i j = x i j)
    ∧ ((iswap (scalar α) (Shape.arr n (Shape.arr m Shape.leaf)) x y).1.1 i j = y i j
      ∧ (iswap (scalar α) (Shape.arr n (Shape.arr m Shape.leaf)) x y).1.2 i j = x i j)
    ∧ ((iswap (scalar α) (Shape.raw n (Shape.arr m Shape.leaf)) x y).1.1 i j = y i j
      ∧ (iswap (scalar α) (Shape.raw n (Shape.arr m Shape.leaf)) x y).1.2 i j = x i j)
    ∧ ((iswap (scalar α) (Shape.arr n (Shape.raw m Shape.leaf)) x y).1.1 i j = y i j
      ∧ (iswap (scalar α) (Shape.arr n (Shape.raw m Shape.leaf)) x y).1.2 i j = x i j) := by
  simp only [iswap_scalar_values, and_self]

/-!
Properties of `multi_t` and `make_multi`
-/

/-- The builder called with one size is the container's own construction. -/
theorem make_multi_nil (C : Type → Type) [Container C] {T : Type} (value : T) (d1 : Nat) :
    make_multi C value d1 [] = (Container.construct d1 value : C T) := rfl

/-- The builder called with more than one size constructs `d1` copies of
the result for the remaining sizes. -/
theorem make_multi_cons (C : Type → Type) [Container C] {T : Type} (value : T)
    (d1 d2 : Nat) (ds : List Nat) :
    make_multi C value d1 (d2 :: ds)
      = (Container.construct d1 (make_multi C value d2 ds) : C (make_multi_t C T ds)) := rfl

/-- What a valid index path reaches in a built value: a container of the
size the dimension list gives for its level when the path is shorter than the
list, the fill value when it is as long. -/
theorem reach_make_multi (C : Type → Type) [Container C] {T : Type} (value : T)
    (ds : List Nat) : ∀ (d1 : Nat) (p : List Nat), valid_path p (d1 :: ds) = true →
    (∀ h : p.length < (d1 :: ds).length,
        reach C ds (make_multi C value d1 ds) p
          = some (Reached.container ((d1 :: ds).get ⟨p.length, h⟩)))
    ∧ (p.length = (d1 :: ds).length →
        reach C ds (make_multi C value d1 ds) p = some (Reached.leaf value)) := by
  induction ds with
  | nil =>
    intro d1 p hp
    match p, hp with
    | [], _ =>
      refine ⟨fun _ => ?_, fun h => by simp at h⟩
      simp [reach, make_multi, Container.size_construct]
    | [i], hp =>
      refine ⟨fun h => by simp at h, fun _ => ?_⟩
      have hi : i < d1 := by simpa [valid_path] using hp
      simp [reach, make_multi, Container.index_construct d1 value i hi]
    | _ :: _ :: _, hp => simp [valid_path] at hp
  | cons d2 ds ih =>
    intro d1 p hp
    match p, hp with
    | [], _ =>
      refine ⟨fun _ => ?_, fun h => by simp at h⟩
      simp [reach, make_multi, Container.size_construct]
    | i :: p, hp =>
      have hsplit : i < d1 ∧ valid_path p (d2 :: ds) = true := by
        simpa [valid_path] using hp
      have hrec := ih d2 p hsplit.2
      have hstep : reach C (d2 :: ds) (make_multi C value d1 (d2 :: ds)) (i :: p)
          = reach C ds (make_multi C value d2 ds) p := by
        simp [reach, make_multi, Container.index_construct d1 _ i hsplit.1]
      rw [hstep]
      refine ⟨fun h => ?_, fun h => ?_⟩
      · have h2 : p.length < (d2 :: ds).length := by simpa using h
        rw [hrec.1 h2]; simp
      · exact hrec.2 (by simpa using h)

/-- C6: for every container family meeting the construction contract, every
fill value and every size `d1`, `make_multi<Container>(value, d1)` is a
container of exactly `d1` elements, each equal to `value`. -/
theorem make_multi_single (C : Type → Type) [Container C] {T : Type} (value : T) (d1 : Nat) :
    Container.size (make_multi C value d1 [] : C T) = d1
    ∧ ∀ i, i < d1 → Container.index (make_multi C value d1 [] : C T) i = some value := by
  rw [make_multi_nil]
  exact ⟨Container.size_construct d1 value, fun i h => Container.index_construct d1 value i h⟩

/-- C6 (witness): `make_multi<std::vector>(2, 1)` is the vector `{2}`: its
size is 1 and its element `[0]` is 2. -/
theorem make_multi_single_witness :
    make_multi List (2 : Int) 1 [] = [2]
    ∧ Container.size (make_multi List (2 : Int) 1 [] : List Int) = 1
    ∧ Container.index (make_multi List (2 : Int) 1 [] : List Int) 0 = some 2 :=
  ⟨rfl, (make_multi_single List (2 : Int) 1).1,
    (make_multi_single List (2 : Int) 1).2 0 (by decide)⟩

/-- C7: for every container family meeting the construction contract, every
fill value and every list of more than one size `d1, d2, ..., dk`, the builder
returns a container of exactly `d1` elements, each equal to the builder's
result for the same value and the sizes `d2, ..., dk`. -/
theorem make_multi_nested (C : Type → Type) [Container C] {T : Type} (value : T)
    (d1 d2 : Nat) (ds : List Nat) :
    Container.size (make_multi C value d1 (d2 :: ds) : C (make_multi_t C T ds)) = d1
    ∧ ∀ i, i < d1 →
        Container.index (make_multi C value d1 (d2 :: ds) : C (make_multi_t C T ds)) i
          = some (make_multi C value d2 ds) := by
  rw [make_multi_cons]
  exact ⟨Container.size_construct d1 _, fun i h => Container.index_construct d1 _ i h⟩

/-- C7 (witness): `make_multi<std::vector>(2, 1, 2)` is `{{2, 2}}`: its size
is 1 and its element `[0]` is `make_multi<std::vector>(2, 2)`. -/
theorem make_multi_nested_witness :
    make_multi List (2 : Int) 1 [2] = [[2, 2]]
    ∧ Container.size (make_multi List (2 : Int) 1 [2] : List (List Int)) = 1
    ∧ Container.index (make_multi List (2 : Int) 1 [2] : List (List Int)) 0
        = some (make_multi List (2 : Int) 2 []) :=
  ⟨rfl, (make_multi_nested List (2 : Int) 1 2 []).1,
    (make_multi_nested List (2 : Int) 1 2 []).2 0 (by decide)⟩

/-- C8: for every container family meeting the construction contract, every
fill value and every non-empty list of sizes `d1, ..., dk`, the built value is
a uniform `k`-level nesting: a valid index path of length `i - 1 < k` reaches
a container of exactly `d_i` elements, and a valid index path of length `k`
reaches a leaf equal to the fill value. -/
theorem make_multi_uniform (C : Type → Type) [Container C] {T : Type} (value : T)
    (d1 : Nat) (ds : List Nat) (p : List Nat) (hp : valid_path p (d1 :: ds) = true) :
    (∀ h : p.length < (d1 :: ds).length,
        reach C ds (make_multi C value d1 ds) p
          = some (Reached.container ((d1 :: ds).get ⟨p.length, h⟩)))
    ∧ (p.length = (d1 :: ds).length →
        reach C ds (make_multi C value d1 ds) p = some (Reached.leaf value)) :=
  reach_make_multi C value ds d1 p hp

/-- C8 (witness): in `c = make_multi<std::vector>(2, 1, 2, 3)` the sizes of
`c`, `c[0]` and `c[0][0]` are 1, 2 and 3, and the leaf `c[0][0][0]` is 2. -/
theorem make_multi_uniform_witness :
    (valid_path [] [1, 2, 3] = true
      ∧ reach List [2, 3] (make_multi List (2 : Int) 1 [2, 3]) []
          = some (Reached.container 1))
    ∧ (valid_path [0] [1, 2, 3] = true
      ∧ reach List [2, 3] (make_multi List (2 : Int) 1 [2, 3]) [0]
          = some (Reached.container 2))
    ∧ (valid_path [0, 0] [1, 2, 3] = true
      ∧ reach List [2, 3] (make_multi List (2 : Int) 1 [2, 3]) [0, 0]
          = some (Reached.container 3))
    ∧ (valid_path [0, 0, 0] [1, 2, 3] = true
      ∧ reach List [2, 3] (make_multi List (2 : Int) 1 [2, 3]) [0, 0, 0]
          = some (Reached.leaf 2)) :=
  ⟨⟨by decide, (make_multi_uniform List (2 : Int) 1 [2, 3] [] (by decide)).1 (by decide)⟩,
   ⟨by decide, (make_multi_uniform List (2 : Int) 1 [2, 3] [0] (by decide)).1 (by decide)⟩,
   ⟨by decide, (make_multi_uniform List (2 : Int) 1 [2, 3] [0, 0] (by decide)).1 (by decide)⟩,
   ⟨by decide, (make_multi_uniform List (2 : Int) 1 [2, 3] [0, 0, 0] (by decide)).2 rfl⟩⟩

/-- C9: for every container family `C`, leaf type `T` and list of `k ≥ 1`
sizes (a first size and the list `ds` of the `k - 1` sizes after it), the type
of the builder's result is `multi_t<C, T, k>`: the nesting depth of the built
value is the number of sizes supplied. -/
theorem make_multi_static_type (C : Type → Type) (T : Type) (ds : List Nat) :
    make_multi_t C T ds = multi_t C T (ds.length + 1) := by
  induction ds with
  | nil => rfl
  | cons d ds ih =>
    show C (make_multi_t C T ds) = C (multi_t C T (ds.length + 1))
    rw [ih]

/-- C10: for every container family `C` and element type `T`,
`multi_t<C, T, 1>` is `C<T>`, and for every depth above 1,
`multi_t<C, T, depth>` is `C<multi_t<C, T, depth - 1>>`. -/
theorem multi_t_unfold (C : Type → Type) (T : Type) :
    multi_t C T 1 = C T
    ∧ ∀ depth, 1 < depth → multi_t C T depth = C (multi_t C T (depth - 1)) := by
  refine ⟨rfl, fun depth h => ?_⟩
  match depth, h with
  | d + 2, _ => rfl

/-- C10 (witness): over `std::vector` and `int`, the depths 1, 2 and 3 give
`vector<int>`, `vector<vector<int>>` and `vector<vector<vector<int>>>`. -/
theorem multi_t_unfold_witness :
    multi_t List Int 1 = List Int
    ∧ multi_t List Int 2 = List (List Int)
    ∧ multi_t List Int 3 = List (List (List Int)) :=
  ⟨(multi_t_unfold List Int).1, (multi_t_unfold List Int).2 2 (by decide),
   (multi_t_unfold List Int).2 3 (by decide)⟩

/-!
Properties of `multi_array_t`, of the capability probe, of the leaf count of
`make_multi`, and further properties of `iswap`
-/

/-- A loop whose every call completes, completes, with the result of the
loop of the array overloads. -/
theorem for_each_index_bounded_fold {β : Type} {n : Nat} (call : Exch β) (l : List (Fin n))
    (st : ((Fin n → β) × (Fin n → β)) × Trace) :
    l.foldl
      (fun st i =>
        match st with
        | none => none
        | some st =>
          match (fun a b => some (call a b) : Attempt β) (st.1.1 i) (st.1.2 i) with
          | none => none
          | some r =>
            some ((Function.update st.1.1 i r.1.1, Function.update st.1.2 i r.1.2),
              st.2 ++ r.2))
      (some st)
    = some (l.foldl
      (fun st i =>
        let r := call (st.1.1 i) (st.1.2 i)
        ((Function.update st.1.1 i r.1.1, Function.update st.1.2 i r.1.2), st.2 ++ r.2))
      st) := by
  induction l generalizing st with
  | nil => rfl
  | cons a l ih => simp only [List.foldl_cons]; exact ih _

/-- The bounded loop over calls that all complete is the loop of the array
overloads. -/
theorem for_each_index_bounded_some {β : Type} (n : Nat) (call : Exch β) (x y : Fin n → β) :
    for_each_index_bounded n (fun a b => some (call a b)) x y
      = some (for_each_index n call x y) :=
  for_each_index_bounded_fold call (List.finRange n) ((x, y), [])

/-- The sum of a list that holds the same number at every position. -/
theorem sum_map_const_nat {ι : Type} (l : List ι) (c : Nat) :
    (l.map (fun _ => c)).sum = l.length * c := by
  induction l with
  | nil => simp
  | cons a l ih => simp [ih, Nat.succ_mul, Nat.add_comm]

/-- C11: for every base type `T` and every non-empty list of sizes
`d1, ..., dk`, `multi_array_t<T, d1>` is `std::array<T, d1>`, and with more
than one size `multi_array_t<T, d1, d2, ..., dk>` is the `std::array` of `d1`
elements of `multi_array_t<T, d2, ..., dk>`, first size outermost. -/
theorem multi_array_t_unfold (T : Type) (d1 : Nat) :
    multi_array_t T d1 [] = std.array T d1
    ∧ ∀ (d2 : Nat) (ds : List Nat),
        multi_array_t T d1 (d2 :: ds) = std.array (multi_array_t T d2 ds) d1 :=
  ⟨rfl, fun _ _ => rfl⟩

/-- C11 (witness): `multi_array_t<int, 1>`, `<int, 1, 1>` and `<int, 1, 1, 1>`
are the array of 1 `int`, the array of 1 array of 1 `int`, and the array of 1
array of 1 array of 1 `int`. -/
theorem multi_array_t_unfold_witness :
    multi_array_t Int 1 [] = std.array Int 1
    ∧ multi_array_t Int 1 [1] = std.array (std.array Int 1) 1
    ∧ multi_array_t Int 1 [1, 1] = std.array (std.array (std.array Int 1) 1) 1 :=
  ⟨(multi_array_t_unfold Int 1).1, (multi_array_t_unfold Int 1).2 1 [],
   (multi_array_t_unfold Int 1).2 1 [1]⟩

/-- C12: `iswap` completes on every pair of operands of every shape, whatever
the nesting depth and the lengths at each level: run with a bound on the
nesting of `iswap` calls, it completes, with the result of the unbounded call,
as soon as the bound exceeds the nesting depth of the operand type. The
recursion descends from an array type to its element type. -/
theorem iswap_terminates {α : Type} (ops : Ops α) (s : Shape) (x y : Val α s) (fuel : Nat)
    (h : depth s < fuel) :
    iswap_bounded ops fuel s x y = some (iswap ops s x y) := by
  induction s generalizing fuel with
  | leaf =>
    match fuel, h with
    | k + 1, _ => rfl
  | raw n e ih =>
    match fuel, h with
    | k + 1, h =>
      have hk : depth e < k := by simpa [depth] using h
      have hself : iswap_bounded ops k e = fun a b => some (iswap ops e a b) := by
        funext a b; exact ih a b k hk
      have hcall : raw_element_call_bounded ops e (iswap_bounded ops k e)
          = fun a b => some (raw_element_call ops e (iswap ops e) a b) := by
        rw [hself]
        cases e <;> rfl
      simp only [iswap_bounded, iswap, hcall, for_each_index_bounded_some]
  | arr n e ih =>
    match fuel, h with
    | k + 1, h =>
      have hk : depth e < k := by simpa [depth] using h
      have hself : iswap_bounded ops k e = fun a b => some (iswap ops e a b) := by
        funext a b; exact ih a b k hk
      simp only [iswap_bounded, iswap, hself, for_each_index_bounded_some]

/-- C12 (witness): two raw arrays of two `std::array<int, 2>`, nesting depth
2, with the bound 3. -/
theorem iswap_terminates_witness :
    depth (Shape.raw 2 (Shape.arr 2 Shape.leaf)) < 3
    ∧ iswap_bounded (scalar Int) 3 (Shape.raw 2 (Shape.arr 2 Shape.leaf))
        ![![1, 2], ![5, 6]] ![![3, 4], ![7, 8]]
      = some (iswap (scalar Int) (Shape.raw 2 (Shape.arr 2 Shape.leaf))
        ![![1, 2], ![5, 6]] ![![3, 4], ![7, 8]]) :=
  ⟨by decide, iswap_terminates (scalar Int) _ _ _ 3 (by decide)⟩

/-- C13: for every container family meeting the construction contract, every
fill value and every non-empty list of sizes `d1, ..., dk`, the number of leaf
elements of the built value is the product `d1 * d2 * ... * dk`. -/
theorem make_multi_leaf_count (C : Type → Type) [Container C] {T : Type} (value : T)
    (d1 : Nat) (ds : List Nat) :
    leaf_count C ds (make_multi C value d1 ds) = (d1 :: ds).prod := by
  induction ds generalizing d1 with
  | nil => simp [leaf_count, make_multi, Container.size_construct]
  | cons d2 ds ih =>
    have hmap : (List.range d1).map
        (fun i =>
          match Container.index
            (Container.construct d1 (make_multi C value d2 ds) : C (make_multi_t C T ds)) i with
          | some e => leaf_count C ds e
          | none => 0)
        = (List.range d1).map (fun _ => (d2 :: ds).prod) := by
      apply List.map_congr_left
      intro i hi
      rw [Container.index_construct d1 _ i (List.mem_range.mp hi)]
      exact ih d2
    simp only [leaf_count, make_multi, Container.size_construct]
    rw [hmap, sum_map_const_nat, List.length_range]
    simp only [List.prod_cons]

/-- C13 (witness): `make_multi<std::vector>(2, 1, 2, 3)` has 6 leaves. -/
theorem make_multi_leaf_count_witness :
    leaf_count List [2, 3] (make_multi List (2 : Int) 1 [2, 3]) = 6 :=
  make_multi_leaf_count List (2 : Int) 1 [2, 3]

/-- C14: for every well-formed type expression, the capability probe
`enable_if_well_formed_t` resolves to `void` when no result type is given and
to `Result` when the result type `Result` is given. -/
theorem enable_if_well_formed_t_valid (E : Type) :
    enable_if_well_formed_t (some E) none = some void
    ∧ ∀ Result : Type, enable_if_well_formed_t (some E) (some Result) = some Result :=
  ⟨rfl, fun _ => rfl⟩

/-- C14 (witness): the probe of `decltype(0)` is `void`, and with the result
type `int` it is `int`. -/
theorem enable_if_well_formed_t_valid_witness :
    enable_if_well_formed_t (some Int) none = some void
    ∧ enable_if_well_formed_t (some Int) (some Int) = some Int :=
  ⟨(enable_if_well_formed_t_valid Int).1, (enable_if_well_formed_t_valid Int).2 Int⟩

/-- C15: `iswap` is an involution on scalars and on nested fixed-size
aggregates of scalars of every shape: `iswap(x, y)` performed twice in
succession leaves `x` and `y` at their original values. -/
theorem iswap_involution {α : Type} (s : Shape) (x y : Val α s) :
    (iswap (scalar α) s (iswap (scalar α) s x y).1.1 (iswap (scalar α) s x y).1.2).1
      = (x, y) := by
  simp only [iswap_scalar_values]

/-- C16 (counterexample): an element type of two `int` fields whose member
`swap` exchanges the second field only, and which has no `swap` of its own at
namespace scope. On the arrays `{(1, 10)}` and `{(2, 20)}` of type
`std::array<E, 1>` the elementwise overload calls the member `swap` of the
element and leaves `x[0] = (1, 20)`; `x.swap(y)` exchanges the elements with
`std::swap` and leaves `x[0] = (2, 20)`. -/
theorem iswap_array_overload_differs :
    (iswap (Ops.mk (some fun a b => ((a.1, b.2), (b.1, a.2))) none)
        (Shape.arr 1 Shape.leaf) ![((1 : Int), (10 : Int))] ![(2, 20)]).1.1 0 = (1, 20)
    ∧ (iswap_T (Ops.mk (some fun a b => ((a.1, b.2), (b.1, a.2))) none)
        (Shape.arr 1 Shape.leaf) ![((1 : Int), (10 : Int))] ![(2, 20)]).1.1 0 = (2, 20)
    ∧ (iswap (Ops.mk (some fun a b => ((a.1, b.2), (b.1, a.2))) none)
        (Shape.arr 1 Shape.leaf) ![((1 : Int), (10 : Int))] ![(2, 20)]).1
      ≠ (iswap_T (Ops.mk (some fun a b => ((a.1, b.2), (b.1, a.2))) none)
        (Shape.arr 1 Shape.leaf) ![((1 : Int), (10 : Int))] ![(2, 20)]).1 := by
  refine ⟨by decide, by decide, fun h => ?_⟩
  have h0 := congrFun (congrArg Prod.fst h) 0
  revert h0
  decide

/-- C16 (amended): for `std::array` operands of every length, 0 included,
the elementwise overload of `iswap` ends in the state the template
`iswap(T&, T&)` reaches through `x.swap(y)` whenever `iswap` and the
unqualified `swap` leave the same state on the elements; they do so for all
values when the elements are scalars or nested fixed-size aggregates of
scalars. -/
theorem iswap_array_overload_agrees {α : Type} (ops : Ops α) (n : Nat) (e : Shape)
    (x y : Val α (Shape.arr n e)) :
    ((∀ a b : Val α e, (iswap ops e a b).1 = unqualified_swap ops e a b) →
        (iswap ops (Shape.arr n e) x y).1 = (iswap_T ops (Shape.arr n e) x y).1)
    ∧ (iswap (scalar α) (Shape.arr n e) x y).1
        = (iswap_T (scalar α) (Shape.arr n e) x y).1 := by
  refine ⟨fun hag => ?_, ?_⟩
  · simp only [iswap, iswap_T, detail.iswap_char, member_swap, for_each_index_eq,
      swap_ranges_eq, hag]
  · rw [iswap_scalar_values, iswap_T_scalar_arr]

/-- C16 (witness): the arrays `{1, 2}` and `{3, 4}` of type
`std::array<int, 2>`, and two empty arrays of type `std::array<int, 0>`. -/
theorem iswap_array_overload_agrees_witness :
    (iswap (scalar Int) (Shape.arr 2 Shape.leaf) ![1, 2] ![3, 4]).1
      = (iswap_T (scalar Int) (Shape.arr 2 Shape.leaf) ![1, 2] ![3, 4]).1
    ∧ (iswap (scalar Int) (Shape.arr 0 Shape.leaf) ![] ![]).1
      = (iswap_T (scalar Int) (Shape.arr 0 Shape.leaf) ![] ![]).1 :=
  ⟨(iswap_array_overload_agrees (scalar Int) 2 Shape.leaf ![1, 2] ![3, 4]).1 (fun _ _ => rfl),
   (iswap_array_overload_agrees (scalar Int) 0 Shape.leaf ![] ![]).2⟩

/-- C17: `iswap` is symmetric in its operands on scalars and on nested
fixed-size aggregates of scalars of every shape: the state of `(x, y)` after
`iswap(x, y)` is the state of `(x, y)` after `iswap(y, x)`. -/
theorem iswap_symmetric {α : Type} (s : Shape) (x y : Val α s) :
    (iswap (scalar α) s x y).1
      = ((iswap (scalar α) s y x).1.2, (iswap (scalar α) s y x).1.1) := by
  simp only [iswap_scalar_values]

end cppu
